import Mathlib

/-!
Shallow embedding of the drag-drop kanban board (src/src/app.ts).

The TypeScript store (`ProjectState`) keeps an array of mutable `Project`
objects.  JavaScript arrays hold object references, `Array.prototype.slice`
copies only the reference array, and `moveProject` mutates a project's
`status` field in place.  To capture this aliasing faithfully, the store is
modelled with an explicit allocation heap: a `Ref` is an index into the
heap, the store's `projects` array is a list of refs, and a delivered
snapshot (`this.projects.slice()`) is a copy of that ref list.  Listeners
are identified by opaque tags; a broadcast is modelled as the list of
(listener tag, delivered snapshot) pairs, in invocation order.
-/

namespace DragDrop

/-- `enum ProjectStatus {Active, Finished}` from app.ts. -/
inductive ProjectStatus
  | Active
  | Finished
deriving DecidableEq

/-- `class Project` from app.ts: id, title, description, people, status. -/
structure Project where
  id : String
  title : String
  description : String
  people : Int
  status : ProjectStatus
deriving DecidableEq

def defaultProject : Project :=
  ⟨"", "", "", 0, ProjectStatus.Active⟩

instance : Inhabited Project := ⟨defaultProject⟩

/-- A JavaScript object reference: an index into the allocation heap. -/
abbrev Ref := Nat

/-- State of the singleton `ProjectState` store: the heap of allocated
`Project` objects, the store's `projects` array (a list of references),
and the registered listeners (identified by opaque tags, in registration
order). -/
structure StoreState where
  heap : List Project
  projects : List Ref
  listeners : List Nat
deriving DecidableEq

/-- Dereference a project reference (JavaScript property read). -/
def derefD (heap : List Project) (r : Ref) : Project :=
  heap.getD r defaultProject

/-- The store's project list as observable values (each array slot
dereferenced in the current heap). -/
def storeProjects (st : StoreState) : List Project :=
  st.projects.map (derefD st.heap)

/-- A single listener invocation: the listener's tag together with the
snapshot (ref-list copy) it was handed. -/
abbrev Delivery := Nat × List Ref

/-- `State.addListener`: `this.listeners.push(listenerFn)`. -/
def addListener (st : StoreState) (tag : Nat) : StoreState :=
  { st with listeners := st.listeners ++ [tag] }

/-- `ProjectState.updateListeners`: calls every registered listener, in
order, with `this.projects.slice()` — a shallow copy of the ref array. -/
def updateListeners (st : StoreState) : List Delivery :=
  st.listeners.map (fun tag => (tag, st.projects))

/-- `ProjectState.addProject`: allocates a new `Project` with status
`Active` and the given field values (the generated id is passed in as a
parameter, since in the source it comes from `Math.random()` and the wall
clock), pushes its reference onto `this.projects`, and broadcasts.
Returns the new store state and the list of listener deliveries. -/
def addProject (st : StoreState) (id title description : String) (people : Int) :
    StoreState × List Delivery :=
  let newProject : Project := ⟨id, title, description, people, ProjectStatus.Active⟩
  let st' : StoreState :=
    { st with
      heap := st.heap ++ [newProject]
      projects := st.projects ++ [st.heap.length] }
  (st', updateListeners st')

/-- `ProjectState.moveProject`: finds the first project whose id matches,
and if it exists and its status differs from `newStatus`, writes the new
status in place (through the shared reference) and broadcasts; otherwise
does nothing. -/
def moveProject (st : StoreState) (projectId : String) (newStatus : ProjectStatus) :
    StoreState × List Delivery :=
  match st.projects.find? (fun r => (derefD st.heap r).id == projectId) with
  | some r =>
      if (derefD st.heap r).status ≠ newStatus then
        let st' : StoreState :=
          { st with heap := st.heap.set r { derefD st.heap r with status := newStatus } }
        (st', updateListeners st')
      else
        (st, [])
  | none => (st, [])

/-- The project object `moveProject` would act on: the first project in the
store whose id matches. -/
def findProject (st : StoreState) (projectId : String) : Option Project :=
  (st.projects.find? (fun r => (derefD st.heap r).id == projectId)).map (derefD st.heap)

/-- What an observer holding a previously delivered snapshot sees when it
reads the snapshot's project objects in the current heap. -/
def snapshotContents (heap : List Project) (snap : List Ref) : List Project :=
  snap.map (derefD heap)

/-- Well-formedness of a store state, maintained by the API: every ref in
the store's array is allocated, and no two array slots alias the same
object (each `addProject` allocates a fresh object). -/
def WF (st : StoreState) : Prop :=
  (∀ r ∈ st.projects, r < st.heap.length) ∧ st.projects.Nodup

instance (st : StoreState) : Decidable (WF st) := by
  unfold WF; infer_instance

/-- The two column kinds: `private type: 'active' | 'finished'` of
`ProjectList`. -/
inductive ColumnType
  | active
  | finished
deriving DecidableEq

/-- The status a column's drop handler targets:
`this.type === 'active' ? ProjectStatus.Active : ProjectStatus.Finished`. -/
def columnStatus : ColumnType → ProjectStatus
  | .active => ProjectStatus.Active
  | .finished => ProjectStatus.Finished

/-- The filter installed by `ProjectList.configure`: keeps the projects of
the snapshot whose status matches the column's kind. -/
def relevantProjects (columnType : ColumnType) (projects : List Project) : List Project :=
  projects.filter (fun prj =>
    match columnType with
    | .active => prj.status == ProjectStatus.Active
    | .finished => prj.status == ProjectStatus.Finished)

/-- The drag event's `dataTransfer` object: typed entries set by `setData`,
plus the `effectAllowed` property. -/
structure DataTransfer where
  data : List (String × String)
  effectAllowed : String
deriving DecidableEq

/-- `DataTransfer.setData(format, payload)`: replaces any existing entry of
the same format with the new payload. -/
def DataTransfer.setData (dt : DataTransfer) (format payload : String) : DataTransfer :=
  { dt with data := dt.data.filter (fun e => e.1 != format) ++ [(format, payload)] }

/-- `DataTransfer.getData(format)`: the payload stored under `format`, or
the empty string when none is present. -/
def DataTransfer.getData (dt : DataTransfer) (format : String) : String :=
  match dt.data.find? (fun e => e.1 == format) with
  | some e => e.2
  | none => ""

/-- `ProjectItem.dragStartHandler`: `setData('text/plain', this.project.id)`
then `effectAllowed = 'move'`.  It touches only the event's transfer
object — the store does not appear in its signature. -/
def dragStartHandler (project : Project) (dt : DataTransfer) : DataTransfer :=
  { dt.setData "text/plain" project.id with effectAllowed := "move" }

/-- `ProjectList.dropHandler`: reads the transferred id and calls
`moveProject(projectId, this.type === 'active' ? Active : Finished)`. -/
def dropHandler (columnType : ColumnType) (dt : DataTransfer) (st : StoreState) :
    StoreState × List Delivery :=
  let projectId := dt.getData "text/plain"
  moveProject st projectId
    (match columnType with
     | .active => ProjectStatus.Active
     | .finished => ProjectStatus.Finished)

/-- A JavaScript `string | number` value. -/
inductive JSValue
  | str (s : String)
  | num (n : Int)
deriving DecidableEq

/-- JavaScript `value.toString()`. -/
def JSValue.toJSString : JSValue → String
  | .str s => s
  | .num n => toString n

/-- JavaScript `String.prototype.trim` (a platform primitive): removes
whitespace from both ends of the string. -/
def jsTrim (s : String) : String :=
  String.mk (((s.data.dropWhile Char.isWhitespace).reverse.dropWhile Char.isWhitespace).reverse)

/-- `interface Validatable` from app.ts; the optional fields model the
`?:` properties (`none` is `undefined`). -/
structure Validatable where
  value : JSValue
  required : Option Bool := none
  minLength : Option Int := none
  maxLength : Option Int := none
  min : Option Int := none
  max : Option Int := none
deriving DecidableEq

/-- `function validate(validatableInput)` from app.ts, step for step:
each rule is applied only under its source guard (`required` truthy;
`minLength != null` and the value is a string; etc.), and the results are
accumulated with `&&`. -/
def validate (validatableInput : Validatable) : Bool :=
  let isValid := true
  let isValid :=
    if validatableInput.required.getD false then
      isValid && ((jsTrim validatableInput.value.toJSString).length != 0)
    else isValid
  let isValid :=
    match validatableInput.minLength, validatableInput.value with
    | some minLength, .str s => isValid && decide (minLength ≤ (s.length : Int))
    | _, _ => isValid
  let isValid :=
    match validatableInput.maxLength, validatableInput.value with
    | some maxLength, .str s => isValid && decide ((s.length : Int) ≤ maxLength)
    | _, _ => isValid
  let isValid :=
    match validatableInput.min, validatableInput.value with
    | some minVal, .num n => isValid && decide (minVal ≤ n)
    | _, _ => isValid
  let isValid :=
    match validatableInput.max, validatableInput.value with
    | some maxVal, .num n => isValid && decide (n ≤ maxVal)
    | _, _ => isValid
  isValid

/-- Modelled from the spec: the `required` rule passes when the value's
trimmed string form is non-empty (vacuously when `required` is not set
truthy). -/
def requiredRuleOk (v : Validatable) : Prop :=
  v.required = some true → (jsTrim v.value.toJSString).length ≠ 0

/-- Modelled from the spec: `minLength` is a string length floor. -/
def minLengthRuleOk (v : Validatable) : Prop :=
  ∀ ml s, v.minLength = some ml → v.value = .str s → ml ≤ (s.length : Int)

/-- Modelled from the spec: `maxLength` is a string length ceiling. -/
def maxLengthRuleOk (v : Validatable) : Prop :=
  ∀ ml s, v.maxLength = some ml → v.value = .str s → (s.length : Int) ≤ ml

/-- Modelled from the spec: `min` is a numeric floor. -/
def minRuleOk (v : Validatable) : Prop :=
  ∀ m n, v.min = some m → v.value = .num n → m ≤ n

/-- Modelled from the spec: `max` is a numeric ceiling. -/
def maxRuleOk (v : Validatable) : Prop :=
  ∀ m n, v.max = some m → v.value = .num n → n ≤ m

/-! ## General lemmas -/

/-- Helper: `find?` returns the element at the first index satisfying the
predicate. -/
theorem find?_first {α : Type} (p : α → Bool) (l : List α) :
    ∀ (i : Nat) (hi : i < l.length),
      p l[i] = true →
      (∀ j (hj : j < l.length), j < i → p l[j] = false) →
      l.find? p = some l[i] := by
  induction l with
  | nil => intro i hi; simp at hi
  | cons a t ih =>
    intro i hi hp hmin
    cases i with
    | zero =>
      simp only [List.getElem_cons_zero] at hp
      simp [List.find?_cons, hp]
    | succ i' =>
      have ha : p a = false := hmin 0 (by simp) (Nat.succ_pos _)
      have ht := ih i' (by simpa using hi) (by simpa using hp)
        (fun j hj hji => by simpa using hmin (j+1) (by simpa using hj) (Nat.succ_lt_succ hji))
      simp [List.find?_cons, ha, ht]

/-- Helper: reading back the entry just written by `setData`. -/
theorem getData_setData (dt : DataTransfer) (format payload : String) :
    (dt.setData format payload).getData format = payload := by
  unfold DataTransfer.setData DataTransfer.getData
  simp only
  induction dt.data with
  | nil => simp
  | cons e t ih =>
    by_cases h : e.1 = format
    · simpa [h] using ih
    · simpa [List.filter_cons, h, List.find?_cons] using ih

/-! ## Claims -/

/-- Claim C1: for every store state and every call `moveProject(id, s)`
where either no project in the store has that id, or the project found has
status equal to `s`, the call is a silent no-op: the store (in particular
the full project list) is byte-for-byte unchanged and no listener is
invoked (the operation is total, so no error is raised). -/
theorem moveProject_noop (st : StoreState) (pid : String) (s : ProjectStatus)
    (h : (∀ p ∈ storeProjects st, p.id ≠ pid)
         ∨ (∃ p, findProject st pid = some p ∧ p.status = s)) :
    moveProject st pid s = (st, []) := by
  rcases h with hnone | ⟨p, hfind, hstat⟩
  · have hfn : st.projects.find? (fun r => (derefD st.heap r).id == pid) = none := by
      rw [List.find?_eq_none]
      intro r hr
      simpa using hnone (derefD st.heap r) (List.mem_map_of_mem _ hr)
    simp [moveProject, hfn]
  · unfold findProject at hfind
    rcases Option.map_eq_some'.mp hfind with ⟨r, hr, hder⟩
    simp [moveProject, hr, hder, hstat]

/-- Witness for C1: moving an id that is not in the store changes
nothing and delivers nothing. -/
theorem moveProject_noop_witness :
    moveProject (⟨[⟨"a", "t", "d", 1, ProjectStatus.Active⟩], [0], [5]⟩ : StoreState)
        "zzz" ProjectStatus.Finished
      = ((⟨[⟨"a", "t", "d", 1, ProjectStatus.Active⟩], [0], [5]⟩ : StoreState), []) :=
  moveProject_noop _ _ _ (Or.inl (by decide))

/-- Claim C2: for every well-formed store whose project ids are pairwise
distinct, every project `p` in the store (at index `i`) and every status
`s ≠ p.status`, `moveProject(p.id, s)` sets exactly that project's status
to `s` (all its other fields kept) and leaves every other project, the
list order, and the listener registry unchanged. -/
theorem moveProject_changes_exactly_target (st : StoreState) (i : Nat) (s : ProjectStatus)
    (hwf : WF st)
    (hids : ((storeProjects st).map Project.id).Nodup)
    (hi : i < (storeProjects st).length)
    (hs : ((storeProjects st)[i]).status ≠ s) :
    storeProjects (moveProject st ((storeProjects st)[i]).id s).1
      = (storeProjects st).set i { (storeProjects st)[i] with status := s }
    ∧ (moveProject st ((storeProjects st)[i]).id s).1.projects = st.projects
    ∧ (moveProject st ((storeProjects st)[i]).id s).1.listeners = st.listeners := by
  have hlen : (storeProjects st).length = st.projects.length := by
    simp [storeProjects]
  have hi' : i < st.projects.length := hlen ▸ hi
  have hpg : (storeProjects st)[i] = derefD st.heap st.projects[i] := by
    simp [storeProjects]
  have hfind : st.projects.find? (fun r => (derefD st.heap r).id == ((storeProjects st)[i]).id)
      = some st.projects[i] := by
    apply find?_first
    · simp [hpg]
    · intro j hj hji
      simp only [beq_eq_false_iff_ne, ne_eq]
      intro heq
      rw [hpg] at heq
      have hjlt : j < (storeProjects st).length := by rwa [hlen]
      have hidj : ((storeProjects st).map Project.id).get ⟨j, by simpa using hjlt⟩
          = ((storeProjects st).map Project.id).get ⟨i, by simpa using hi⟩ := by
        simp only [List.get_eq_getElem, List.getElem_map, storeProjects]
        exact heq
      have := hids.get_inj_iff.mp hidj
      simp only [Fin.mk.injEq] at this
      omega
  unfold moveProject
  rw [hfind]
  simp only
  rw [if_pos (by rw [← hpg]; exact hs)]
  refine ⟨?_, rfl, rfl⟩
  apply List.ext_getElem
  · simp [storeProjects]
  · intro j hj1 hj2
    simp only [storeProjects, List.getElem_map]
    by_cases hij : j = i
    · subst hij
      have hri : st.projects[j] < st.heap.length :=
        hwf.1 _ (List.getElem_mem _)
      rw [List.getElem_set_self]
      unfold derefD
      simp [List.getElem?_set_self hri, hpg]
    · have hj' : j < st.projects.length := by simpa [storeProjects] using hj1
      have hrj : st.projects[j] ≠ st.projects[i] := by
        intro heq
        exact hij (hwf.2.getElem_inj_iff.mp heq)
      rw [List.getElem_set_ne (fun h => hij (h.symm))]
      unfold derefD
      simp only [List.getD_eq_getElem?_getD]
      rw [List.getElem?_set_ne (fun h => hrj (h.symm))]
      simp [storeProjects]

/-- Witness for C2: in a two-project store, moving project "a" to
Finished rewrites exactly its status. -/
theorem moveProject_changes_exactly_target_witness :
    storeProjects
        (moveProject
          (⟨[⟨"a", "ta", "da", 1, ProjectStatus.Active⟩,
             ⟨"b", "tb", "db", 2, ProjectStatus.Active⟩], [0, 1], [5]⟩ : StoreState)
          "a" ProjectStatus.Finished).1
      = [⟨"a", "ta", "da", 1, ProjectStatus.Finished⟩,
         ⟨"b", "tb", "db", 2, ProjectStatus.Active⟩] :=
  ((moveProject_changes_exactly_target
      (⟨[⟨"a", "ta", "da", 1, ProjectStatus.Active⟩,
         ⟨"b", "tb", "db", 2, ProjectStatus.Active⟩], [0, 1], [5]⟩ : StoreState)
      0 ProjectStatus.Finished (by decide) (by decide) (by decide) (by decide)).1).trans
    (by decide)

/-- Claim C3: every `addProject(title, description, people)` call on a
well-formed store appends exactly one new project, with status `Active`
and the given field values, at the end of the list (so the count grows by
one), and triggers exactly one synchronous broadcast: one delivery per
registered listener, each handed the full current list. -/
theorem addProject_appends_active_and_broadcasts
    (st : StoreState) (id title description : String) (people : Int)
    (hwf : WF st) :
    storeProjects (addProject st id title description people).1
      = storeProjects st ++ [⟨id, title, description, people, ProjectStatus.Active⟩]
    ∧ (addProject st id title description people).1.projects.length
        = st.projects.length + 1
    ∧ (addProject st id title description people).2
        = st.listeners.map
            (fun tag => (tag, (addProject st id title description people).1.projects))
    ∧ (addProject st id title description people).1.listeners = st.listeners := by
  refine ⟨?_, by simp [addProject], rfl, rfl⟩
  unfold addProject storeProjects
  simp only [List.map_append, List.map_cons, List.map_nil]
  have h1 : st.projects.map
        (derefD (st.heap ++ [(⟨id, title, description, people, ProjectStatus.Active⟩ : Project)]))
      = st.projects.map (derefD st.heap) := by
    apply List.map_congr_left
    intro r hr
    unfold derefD
    simp [List.getElem?_append_left (hwf.1 r hr)]
  have h2 : derefD (st.heap ++ [(⟨id, title, description, people, ProjectStatus.Active⟩ : Project)])
        st.heap.length
      = ⟨id, title, description, people, ProjectStatus.Active⟩ := by
    unfold derefD
    simp [List.getElem?_concat_length]
  simp [h1, h2]

/-- Witness for C3: adding "b" to a one-project store appends it, Active,
at the end. -/
theorem addProject_appends_active_and_broadcasts_witness :
    storeProjects
        (addProject (⟨[⟨"a", "t", "d", 1, ProjectStatus.Active⟩], [0], [5]⟩ : StoreState)
          "b" "tb" "db" 2).1
      = storeProjects (⟨[⟨"a", "t", "d", 1, ProjectStatus.Active⟩], [0], [5]⟩ : StoreState)
        ++ [⟨"b", "tb", "db", 2, ProjectStatus.Active⟩] :=
  (addProject_appends_active_and_broadcasts
    (⟨[⟨"a", "t", "d", 1, ProjectStatus.Active⟩], [0], [5]⟩ : StoreState)
    "b" "tb" "db" 2 (by decide)).1

/-- Claim C4: for every snapshot, the Active-column filter and the
Finished-column filter are disjoint, together they form a permutation of
the full snapshot (equal as multisets), and each preserves the relative
order of the source list (is a sublist of it). -/
theorem column_filter_partition (l : List Project) :
    (∀ p ∈ relevantProjects .active l, p ∉ relevantProjects .finished l)
    ∧ (relevantProjects .active l ++ relevantProjects .finished l).Perm l
    ∧ (relevantProjects .active l).Sublist l
    ∧ (relevantProjects .finished l).Sublist l := by
  refine ⟨?_, ?_, ?_, ?_⟩
  · intro p h1 h2
    simp [relevantProjects] at h1 h2
    rw [h1.2] at h2
    exact absurd h2.2 (by decide)
  · have h : (fun prj : Project => prj.status == ProjectStatus.Finished)
        = (fun prj : Project => !(prj.status == ProjectStatus.Active)) := by
      funext prj; cases prj.status <;> rfl
    simpa [relevantProjects, h] using
      List.filter_append_perm (fun prj : Project => prj.status == ProjectStatus.Active) l
  · exact List.filter_sublist (l := l)
  · exact List.filter_sublist (l := l)

/-- Counterexample for C5: the snapshot handed to an observer is only a
shallow copy.  Start from an empty store with one listener, add project
"a" (the broadcast delivers a snapshot), then move "a" to Finished: the
contents seen through the previously delivered snapshot change. -/
theorem snapshot_mutation_visible :
    snapshotContents
        (moveProject (addProject (⟨[], [], [0]⟩ : StoreState) "a" "t" "d" 1).1 "a"
          ProjectStatus.Finished).1.heap
        (((addProject (⟨[], [], [0]⟩ : StoreState) "a" "t" "d" 1).2.headD (0, [])).2)
      ≠ snapshotContents (addProject (⟨[], [], [0]⟩ : StoreState) "a" "t" "d" 1).1.heap
        (((addProject (⟨[], [], [0]⟩ : StoreState) "a" "t" "d" 1).2.headD (0, [])).2) := by
  decide

/-- Claim C5 (amended): every broadcast hands each observer a shallow
copy of the project list: the ref array is copied, so a later `addProject`
leaves the contents of every previously delivered snapshot unchanged, but
the project records themselves are shared, so a status-changing
`moveProject` is visible through previously delivered snapshots (the
moved project's record, read through its shared reference, shows the new
status). -/
theorem snapshot_shallow_copy :
    (∀ (st : StoreState) (snap : List Ref) (id title description : String) (people : Int),
       (∀ r ∈ snap, r < st.heap.length) →
       snapshotContents (addProject st id title description people).1.heap snap
         = snapshotContents st.heap snap)
    ∧ (∀ (st : StoreState) (pid : String) (s : ProjectStatus) (r : Ref),
        st.projects.find? (fun q => (derefD st.heap q).id == pid) = some r →
        r < st.heap.length →
        (derefD st.heap r).status ≠ s →
        derefD (moveProject st pid s).1.heap r = { derefD st.heap r with status := s }) := by
  constructor
  · intro st snap id title description people hsnap
    unfold snapshotContents addProject
    apply List.map_congr_left
    intro r hr
    unfold derefD
    simp [List.getElem?_append_left (hsnap r hr)]
  · intro st pid s r hfind hlt hne
    unfold moveProject
    rw [hfind]
    simp only
    rw [if_pos hne]
    unfold derefD
    simp [List.getElem?_set_self hlt]

/-- Witness for C5 (amended): a later `addProject` does not change what an
old snapshot shows, while a status-changing `moveProject` does show
through the shared record. -/
theorem snapshot_shallow_copy_witness :
    snapshotContents
        (addProject (⟨[⟨"a", "t", "d", 1, ProjectStatus.Active⟩], [0], [5]⟩ : StoreState)
          "b" "tb" "db" 2).1.heap [0]
      = snapshotContents
          (⟨[⟨"a", "t", "d", 1, ProjectStatus.Active⟩], [0], [5]⟩ : StoreState).heap [0]
    ∧ derefD
        (moveProject (⟨[⟨"a", "t", "d", 1, ProjectStatus.Active⟩], [0], [5]⟩ : StoreState)
          "a" ProjectStatus.Finished).1.heap 0
      = { derefD (⟨[⟨"a", "t", "d", 1, ProjectStatus.Active⟩], [0], [5]⟩ : StoreState).heap 0
            with status := ProjectStatus.Finished } :=
  ⟨snapshot_shallow_copy.1
      (⟨[⟨"a", "t", "d", 1, ProjectStatus.Active⟩], [0], [5]⟩ : StoreState)
      [0] "b" "tb" "db" 2 (by decide),
   snapshot_shallow_copy.2
      (⟨[⟨"a", "t", "d", 1, ProjectStatus.Active⟩], [0], [5]⟩ : StoreState)
      "a" ProjectStatus.Finished 0 (by decide) (by decide) (by decide)⟩

/-- Claim C6: `validate` returns true iff every rule specified on the
input passes (logical AND) — `required` meaning the value's trimmed
string form is non-empty, `minLength`/`maxLength` bounding string length,
`min`/`max` bounding numeric value — and in particular the five concrete
examples of the spec evaluate as stated. -/
theorem validate_conjunction_of_rules :
    (∀ v : Validatable,
      validate v = true ↔
        (requiredRuleOk v ∧ minLengthRuleOk v ∧ maxLengthRuleOk v ∧ minRuleOk v ∧ maxRuleOk v))
    ∧ validate ⟨.str "", some true, none, none, none, none⟩ = false
    ∧ validate ⟨.str "abcd", some true, some 5, none, none, none⟩ = false
    ∧ validate ⟨.str "abcde", some true, some 5, none, none, none⟩ = true
    ∧ validate ⟨.num 3, none, none, none, some 1, some 5⟩ = true
    ∧ validate ⟨.num 6, none, none, none, some 1, some 5⟩ = false := by
  refine ⟨?_, by decide, by decide, by decide, by decide, by decide⟩
  intro v
  obtain ⟨value, rq, mnl, mxl, mn, mx⟩ := v
  unfold validate requiredRuleOk minLengthRuleOk maxLengthRuleOk minRuleOk maxRuleOk
  rcases rq with _ | rq
  all_goals (try cases rq)
  all_goals cases value
  all_goals cases mnl <;> cases mxl <;> cases mn <;> cases mx
  all_goals simp_all
  all_goals try omega

/-- Claim C7: the drag-transfer protocol carries only the project id —
`dragStartHandler` (whose signature involves only the transfer object,
never the store) writes exactly the dragged project's id under
'text/plain' and sets the allowed effect to "move"; `dropHandler` reads
that id and invokes `moveProject(id, s)` with `s` the drop column's
status, so the status change happens only at drop time. -/
theorem drag_transfer_protocol (project : Project) (dt : DataTransfer)
    (t : ColumnType) (st : StoreState) :
    (dragStartHandler project dt).getData "text/plain" = project.id
    ∧ (dragStartHandler project dt).effectAllowed = "move"
    ∧ dropHandler t (dragStartHandler project dt) st
        = moveProject st project.id (columnStatus t)
    ∧ dropHandler t dt st = moveProject st (dt.getData "text/plain") (columnStatus t) := by
  have hget : (dragStartHandler project dt).getData "text/plain" = project.id := by
    have := getData_setData dt "text/plain" project.id
    simpa [dragStartHandler, DataTransfer.getData, DataTransfer.setData] using this
  refine ⟨hget, rfl, ?_, ?_⟩
  · cases t <;> simp [dropHandler, hget, columnStatus]
  · cases t <;> simp [dropHandler, columnStatus]

/-- Claim C8: `addListener` appends to the listener registry, and every
broadcast — the one of `addProject` and the one of a status-changing
`moveProject` — invokes each registered listener exactly once, in
registration order, each invocation handed the full current list (a
non-status-changing move delivers nothing). -/
theorem broadcast_registration_order :
    (∀ st tag, (addListener st tag).listeners = st.listeners ++ [tag]
       ∧ (addListener st tag).projects = st.projects
       ∧ (addListener st tag).heap = st.heap)
    ∧ (∀ st id title description people,
        (addProject st id title description people).2
          = st.listeners.map
              (fun tag => (tag, (addProject st id title description people).1.projects)))
    ∧ (∀ st pid s,
        (moveProject st pid s).2 = []
        ∨ (moveProject st pid s).2
            = st.listeners.map (fun tag => (tag, (moveProject st pid s).1.projects))) := by
  refine ⟨fun st tag => ⟨rfl, rfl, rfl⟩, fun st id title description people => rfl,
    fun st pid s => ?_⟩
  cases hfn : st.projects.find? (fun r => (derefD st.heap r).id == pid) with
  | none => left; simp [moveProject, hfn]
  | some r =>
    by_cases hs : (derefD st.heap r).status = s
    · left; simp [moveProject, hfn, hs]
    · right; simp [moveProject, hfn, hs, updateListeners]

/-- Claim C10: `validate` applies each rule only when the value has the
matching type — for string values the `min`/`max` rules never affect the
result (in particular a string input with only `min := 1, max := 5` set is
always valid), and for numeric values the `minLength`/`maxLength` rules
never affect the result. -/
theorem validate_type_guards :
    (∀ (s : String) (rq : Option Bool) (mnl mxl mn mx : Option Int),
      validate ⟨.str s, rq, mnl, mxl, mn, mx⟩ = validate ⟨.str s, rq, mnl, mxl, none, none⟩)
    ∧ (∀ (n : Int) (rq : Option Bool) (mnl mxl mn mx : Option Int),
      validate ⟨.num n, rq, mnl, mxl, mn, mx⟩ = validate ⟨.num n, rq, none, none, mn, mx⟩)
    ∧ (∀ s : String, validate ⟨.str s, none, none, none, some 1, some 5⟩ = true) := by
  refine ⟨fun s rq mnl mxl mn mx => ?_, fun n rq mnl mxl mn mx => ?_, fun s => rfl⟩
  · cases mn <;> cases mx <;> rfl
  · cases mnl <;> cases mxl <;> rfl

end DragDrop
